import Mathlib

/-!
Verification of the zk-schnorr-tls repository: a two-party Schnorr
identification protocol (commit / challenge / response) over the Ristretto
group of curve25519, with a hex text wire encoding.

The development shallowly embeds the three Rust source files:
  src/zk_schnorr_lib/src/lib.rs  (messages, hex codecs, point decode errors)
  src/prover/src/main.rs         (prover engine)
  src/verifier/src/main.rs       (verifier engine, handle_prover)

Modelling decisions, stated once here:
* Scalars are the scalar field of the Ristretto group, ZMod groupOrder,
  mirroring curve25519_dalek::scalar::Scalar (arithmetic mod the group
  order, canonical 32-byte little-endian encoding).
* The Ristretto group is a cyclic group of prime order groupOrder, so it is
  modelled by its discrete logarithm with respect to the fixed basepoint G:
  a point is a wrapped scalar (its dlog), point addition adds dlogs, and
  point-times-scalar multiplies the dlog. This is exactly the group
  structure the protocol relies on; the concrete curve arithmetic lives in
  the curve25519-dalek dependency, outside this repository.
* Point compression is modelled as the canonical injective 32-byte
  encoding of the group element (the little-endian bytes of its dlog);
  decompression fails on byte strings that do not denote a group element,
  mirroring the Option returned by CompressedRistretto::decompress.
* Bytes are natural numbers below 256; byte strings are lists of bytes.
* Randomness (the nonce k and challenge c, drawn from OsRng in the source)
  is passed to the engines as explicit parameters, and the transport is a
  list of already-framed messages: each engine consumes its incoming
  messages in order and returns the list of messages it wrote together
  with its Result value.
-/

/-- Order of the Ristretto group and modulus of its scalar field, the
constant ℓ of curve25519: 2^252 + 27742317777372353535851937790883648493. -/
def groupOrder : Nat := 2^252 + 27742317777372353535851937790883648493

instance : NeZero groupOrder := ⟨by decide⟩

/-- Scalars of curve25519-dalek: integers modulo the group order. -/
abbrev Scalar := ZMod groupOrder

instance {ε α : Type} [DecidableEq ε] [DecidableEq α] : DecidableEq (Except ε α) := fun a b =>
  match a, b with
  | .ok x, .ok y => decidable_of_iff (x = y) (by simp)
  | .error e, .error f => decidable_of_iff (e = f) (by simp)
  | .ok _, .error _ => isFalse (by simp)
  | .error _, .ok _ => isFalse (by simp)

/-- Value of a little-endian byte string. -/
def leVal : List Nat → Nat
  | [] => 0
  | b :: bs => b + 256 * leVal bs

/-- Little-endian byte string of a given width for a value. -/
def toBytesLE : Nat → Nat → List Nat
  | 0, _ => []
  | w + 1, v => v % 256 :: toBytesLE w (v / 256)

/-- Scalar::from_bytes_mod_order of curve25519-dalek: interpret 32 bytes as a
little-endian integer and reduce modulo the group order (total, never fails). -/
def scalarFromBytesModOrder (bytes : List Nat) : Scalar := (leVal bytes : Scalar)

/-- Scalar::to_bytes of curve25519-dalek: the canonical little-endian 32-byte
encoding of the reduced representative. -/
def scalarToBytes (s : Scalar) : List Nat := toBytesLE 32 s.val

/-- Ristretto group element, modelled by its discrete logarithm with respect
to the fixed basepoint (the group is cyclic of prime order groupOrder). -/
structure RistrettoPoint where
  dlog : Scalar
deriving DecidableEq

/-- Point addition: adds discrete logarithms. -/
instance : Add RistrettoPoint := ⟨fun p q => ⟨p.dlog + q.dlog⟩⟩

/-- Point times scalar (the source writes point * scalar):
multiplies the discrete logarithm. -/
instance : HMul RistrettoPoint Scalar RistrettoPoint := ⟨fun p s => ⟨p.dlog * s⟩⟩

/-- The fixed generator G (curve25519_dalek::constants::RISTRETTO_BASEPOINT_POINT). -/
def RISTRETTO_BASEPOINT_POINT : RistrettoPoint := ⟨1⟩

/-- RistrettoPoint::compress().to_bytes(): the canonical 32-byte compressed
encoding of a group element (modelled as the little-endian bytes of its dlog). -/
def compress (p : RistrettoPoint) : List Nat := toBytesLE 32 p.dlog.val

/-- CompressedRistretto::decompress(): returns some group element when the 32
bytes are a canonical encoding of one, and none otherwise. -/
def decompress (bytes : List Nat) : Option RistrettoPoint :=
  if leVal bytes < groupOrder then some ⟨(leVal bytes : Scalar)⟩ else none

/-- hex::FromHexError of the hex crate. -/
inductive FromHexError where
  | InvalidHexCharacter (c : Char) (index : Nat)
  | OddLength
  | InvalidStringLength
deriving DecidableEq

/-- Value of one hex digit character; the hex crate accepts 0-9, a-f and A-F. -/
def hexDigitVal (c : Char) : Option Nat :=
  let n := c.toNat
  if 48 ≤ n ∧ n ≤ 57 then some (n - 48)
  else if 97 ≤ n ∧ n ≤ 102 then some (n - 87)
  else if 65 ≤ n ∧ n ≤ 70 then some (n - 55)
  else none

/-- Lowercase hex digit character for a value below 16; the hex crate encodes
in lowercase. -/
def hexDigitChar (n : Nat) : Char := Char.ofNat (if n < 10 then 48 + n else 87 + n)

/-- Pairwise hex decoding: two characters per byte, high nibble first; the
first invalid character is reported with its index. -/
def hexPairs : List Char → Nat → Except FromHexError (List Nat)
  | [], _ => .ok []
  | [_], _ => .error .OddLength
  | c1 :: c2 :: rest, i =>
    match hexDigitVal c1 with
    | none => .error (.InvalidHexCharacter c1 i)
    | some hi =>
      match hexDigitVal c2 with
      | none => .error (.InvalidHexCharacter c2 (i + 1))
      | some lo =>
        match hexPairs rest (i + 2) with
        | .error e => .error e
        | .ok bs => .ok ((16 * hi + lo) :: bs)

/-- hex::decode: rejects odd-length input with OddLength, otherwise decodes
two characters per byte. -/
def hex_decode (s : String) : Except FromHexError (List Nat) :=
  if s.data.length % 2 = 1 then .error .OddLength else hexPairs s.data 0

/-- Characters of the lowercase hex encoding of a byte string. -/
def hexChars : List Nat → List Char
  | [] => []
  | b :: bs => hexDigitChar (b / 16) :: hexDigitChar (b % 16) :: hexChars bs

/-- hex::encode: lowercase hex, two characters per byte. -/
def hex_encode (bytes : List Nat) : String := ⟨hexChars bytes⟩

/-- scalar_from_hex of src/zk_schnorr_lib/src/lib.rs lines 54-62: decode the
hex string, require exactly 32 bytes (else InvalidStringLength), then reduce
the bytes modulo the group order. -/
def scalar_from_hex (s : String) : Except FromHexError Scalar :=
  match hex_decode s with
  | .error e => .error e
  | .ok bytes =>
    if bytes.length ≠ 32 then .error .InvalidStringLength
    else .ok (scalarFromBytesModOrder bytes)

/-- scalar_to_hex of src/zk_schnorr_lib/src/lib.rs lines 65-67. -/
def scalar_to_hex (s : Scalar) : String := hex_encode (scalarToBytes s)

/-- point_to_hex of src/zk_schnorr_lib/src/lib.rs lines 73-75. -/
def point_to_hex (p : RistrettoPoint) : String := hex_encode (compress p)

/-- PointDecodeError of src/zk_schnorr_lib/src/lib.rs lines 94-102. -/
inductive PointDecodeError where
  | HexDecode (e : FromHexError)
  | InvalidLength (n : Nat)
  | InvalidPoint
deriving DecidableEq

/-- point_from_hex of src/zk_schnorr_lib/src/lib.rs lines 78-91: decode hex,
require exactly 32 bytes, then decompress, with InvalidPoint on failure. -/
def point_from_hex (s : String) : Except PointDecodeError RistrettoPoint :=
  match hex_decode s with
  | .error e => .error (.HexDecode e)
  | .ok bytes =>
    if bytes.length ≠ 32 then .error (.InvalidLength bytes.length)
    else
      match decompress bytes with
      | some p => .ok p
      | none => .error .InvalidPoint

/-- Message of src/zk_schnorr_lib/src/lib.rs lines 16-21: a kind discriminator
and a hex payload. -/
structure Message where
  kind : String
  payload : String
deriving DecidableEq

/-- Message::commit, lines 25-30 of lib.rs. -/
def Message.commit (point : RistrettoPoint) : Message :=
  ⟨"commit", point_to_hex point⟩

/-- Message::challenge, lines 33-38 of lib.rs. -/
def Message.challenge (scalar : Scalar) : Message :=
  ⟨"challenge", scalar_to_hex scalar⟩

/-- Message::response, lines 41-46 of lib.rs. -/
def Message.response (scalar : Scalar) : Message :=
  ⟨"response", scalar_to_hex scalar⟩

/-- Modelled from the spec: hashToScalar, the deterministic wide hash used to
derive the demo secret (Scalar::hash_from_bytes with SHA-512 in the source).
The SHA-512 compression itself lives in the sha2 crate, outside this
repository; it is modelled as a fixed deterministic function of the seed
bytes reduced modulo the group order, which is all the claims about it use. -/
def hash_from_bytes_sha512 (seed : String) : Scalar :=
  scalarFromBytesModOrder (seed.data.map Char.toNat)

/-- The hardcoded secret seed of src/prover/src/main.rs line 14. -/
def proverSecretSeed : String := "demo-prover-secret"

/-- The secret scalar the prover derives, src/prover/src/main.rs line 15. -/
def proverSecret : Scalar := hash_from_bytes_sha512 proverSecretSeed

/-- The prover's public key X = x·G, src/prover/src/main.rs line 16. -/
def proverPublicKey : RistrettoPoint := RISTRETTO_BASEPOINT_POINT * proverSecret

/-- The hardcoded secret seed of src/verifier/src/main.rs line 71. -/
def verifierSecretSeed : String := "demo-prover-secret"

/-- The secret scalar the verifier derives, src/verifier/src/main.rs line 72. -/
def verifierSecret : Scalar := hash_from_bytes_sha512 verifierSecretSeed

/-- The public key the verifier checks against, src/verifier/src/main.rs line 73. -/
def verifierPublicKey : RistrettoPoint := RISTRETTO_BASEPOINT_POINT * verifierSecret

/-- Session failures: the anyhow error values of the two binaries. The
transport and protocol variants carry the bail message; the decode variants
carry the error converted by the question-mark operator. -/
inductive ProtocolFailure where
  | transport (msg : String)
  | protocol (msg : String)
  | scalarDecode (e : FromHexError)
  | pointDecode (e : PointDecodeError)
deriving DecidableEq

/-- Terminal outcome of the verifier's check, src/verifier/src/main.rs lines
112-118: which of the two println branches runs. -/
inductive VerifyOutcome where
  | Verified
  | Rejected
deriving DecidableEq

/-- The verification step of handle_prover, src/verifier/src/main.rs lines
108-118: left = s·G, right = R + c·X, Verified exactly when they are equal. -/
def verify_outcome (X R : RistrettoPoint) (c s : Scalar) : VerifyOutcome :=
  if RISTRETTO_BASEPOINT_POINT * s = R + X * c then .Verified else .Rejected

/-- The prover engine, src/prover/src/main.rs lines 26-49, with the secret x
and the random nonce k as parameters and the incoming lines as a list: sends
Commit(k·G); then reads one message, requires kind "challenge" (else bails),
decodes the challenge scalar, and sends Response(k + c·x). Returns the
messages written in order, with the Result of the run. -/
def prover_run (x k : Scalar) (incoming : List Message) :
    List Message × Except ProtocolFailure Unit :=
  let R := RISTRETTO_BASEPOINT_POINT * k
  let commitMsg := Message.commit R
  match incoming with
  | [] => ([commitMsg], .error (.transport "connection closed"))
  | chMsg :: _ =>
    if chMsg.kind ≠ "challenge" then ([commitMsg], .error (.protocol "expected challenge"))
    else
      match scalar_from_hex chMsg.payload with
      | .error e => ([commitMsg], .error (.scalarDecode e))
      | .ok c => ([commitMsg, Message.response (k + c * x)], .ok ())

/-- handle_prover, src/verifier/src/main.rs lines 66-121, with the random
challenge c as a parameter and the incoming lines as a list: reads one
message, requires kind "commit" (else bails), decodes the commitment point R;
sends Challenge(c); reads one message, requires kind "response", decodes the
response scalar s; then checks s·G = R + c·X against the verifier's derived
public key and returns Ok with the outcome (both branches return Ok in the
source). Returns the messages written in order, with the Result of the run. -/
def handle_prover (c : Scalar) (incoming : List Message) :
    List Message × Except ProtocolFailure VerifyOutcome :=
  match incoming with
  | [] => ([], .error (.transport "Connection closed before receiving commitment"))
  | commitMsg :: rest =>
    if commitMsg.kind ≠ "commit" then ([], .error (.protocol "Expected commit message"))
    else
      match point_from_hex commitMsg.payload with
      | .error e => ([], .error (.pointDecode e))
      | .ok R =>
        match rest with
        | [] => ([Message.challenge c],
            .error (.transport "Connection closed before receiving response"))
        | respMsg :: _ =>
          if respMsg.kind ≠ "response" then
            ([Message.challenge c], .error (.protocol "Expected response message"))
          else
            match scalar_from_hex respMsg.payload with
            | .error e => ([Message.challenge c], .error (.scalarDecode e))
            | .ok s => ([Message.challenge c], .ok (verify_outcome verifierPublicKey R c s))

/-- Flip bit t of the byte b: bit t of b is b / 2^t % 2, and flipping it
subtracts 2^t when it is set and adds 2^t when it is clear. -/
def flipBitByte (b t : Nat) : Nat :=
  if b / 2^t % 2 = 1 then b - 2^t else b + 2^t

/-- Flip bit t of byte number k (little-endian order) of a byte string. -/
def flipAt : List Nat → Nat → Nat → List Nat
  | [], _, _ => []
  | b :: bs, 0, t => flipBitByte b t :: bs
  | b :: bs, k + 1, t => b :: flipAt bs k t

/-- Flip the single bit with global little-endian index i of a byte string:
bit i % 8 of byte i / 8. -/
def flipBitInBytes (bytes : List Nat) (i : Nat) : List Nat :=
  flipAt bytes (i / 8) (i % 8)

/-! ## Supporting lemmas: byte strings and the hex codec -/

theorem length_toBytesLE (w v : Nat) : (toBytesLE w v).length = w := by
  induction w generalizing v with
  | zero => rfl
  | succ w ih => simp [toBytesLE, ih]

theorem leVal_toBytesLE (w v : Nat) (h : v < 256 ^ w) : leVal (toBytesLE w v) = v := by
  induction w generalizing v with
  | zero =>
    have hv : v = 0 := Nat.lt_one_iff.mp (by simpa using h)
    simp [toBytesLE, leVal, hv]
  | succ w ih =>
    have hdiv : v / 256 < 256 ^ w := by
      rw [Nat.div_lt_iff_lt_mul (by norm_num)]
      calc v < 256 ^ (w + 1) := h
        _ = 256 ^ w * 256 := by rw [pow_succ]
    simp only [toBytesLE, leVal, ih (v / 256) hdiv]
    exact Nat.mod_add_div v 256

theorem mem_toBytesLE_lt (w v : Nat) : ∀ b ∈ toBytesLE w v, b < 256 := by
  induction w generalizing v with
  | zero => intro b hb; simp [toBytesLE] at hb
  | succ w ih =>
    intro b hb
    simp only [toBytesLE, List.mem_cons] at hb
    rcases hb with hb | hb
    · subst hb; exact Nat.mod_lt _ (by norm_num)
    · exact ih (v / 256) b hb

theorem hexDigitVal_hexDigitChar : ∀ n < 16, hexDigitVal (hexDigitChar n) = some n := by
  decide

theorem hexPairs_hexChars (bytes : List Nat) (hlt : ∀ b ∈ bytes, b < 256) :
    ∀ i, hexPairs (hexChars bytes) i = .ok bytes := by
  induction bytes with
  | nil => intro i; rfl
  | cons b bs ih =>
    intro i
    have hb : b < 256 := hlt b (by simp)
    have hhi : b / 16 < 16 := Nat.div_lt_of_lt_mul (by omega)
    have hlo : b % 16 < 16 := Nat.mod_lt _ (by norm_num)
    have hbs : ∀ x ∈ bs, x < 256 := fun x hx => hlt x (by simp [hx])
    simp only [hexChars, hexPairs, hexDigitVal_hexDigitChar _ hhi,
      hexDigitVal_hexDigitChar _ hlo, ih hbs (i + 2)]
    rw [Nat.div_add_mod b 16]

theorem length_hexChars (bytes : List Nat) : (hexChars bytes).length = 2 * bytes.length := by
  induction bytes with
  | nil => rfl
  | cons b bs ih => simp [hexChars, ih]; omega

theorem hex_decode_hex_encode (bytes : List Nat) (hlt : ∀ b ∈ bytes, b < 256) :
    hex_decode (hex_encode bytes) = .ok bytes := by
  simp only [hex_decode, hex_encode, length_hexChars]
  rw [if_neg (by omega)]
  exact hexPairs_hexChars bytes hlt 0

theorem groupOrder_lt : groupOrder < 256 ^ 32 := by decide

theorem leVal_scalarToBytes (s : Scalar) : leVal (scalarToBytes s) = s.val :=
  leVal_toBytesLE 32 s.val (lt_trans (ZMod.val_lt s) groupOrder_lt)

theorem scalarFromBytes_scalarToBytes (s : Scalar) :
    scalarFromBytesModOrder (scalarToBytes s) = s := by
  rw [scalarFromBytesModOrder, leVal_scalarToBytes]
  exact ZMod.natCast_zmod_val s

theorem mem_scalarToBytes_lt (s : Scalar) : ∀ b ∈ scalarToBytes s, b < 256 :=
  mem_toBytesLE_lt 32 s.val

theorem length_scalarToBytes (s : Scalar) : (scalarToBytes s).length = 32 :=
  length_toBytesLE 32 s.val

theorem mem_compress_lt (p : RistrettoPoint) : ∀ b ∈ compress p, b < 256 :=
  mem_toBytesLE_lt 32 p.dlog.val

theorem length_compress (p : RistrettoPoint) : (compress p).length = 32 :=
  length_toBytesLE 32 p.dlog.val

theorem scalar_from_hex_scalar_to_hex (s : Scalar) :
    scalar_from_hex (scalar_to_hex s) = .ok s := by
  rw [scalar_to_hex, scalar_from_hex,
    hex_decode_hex_encode (scalarToBytes s) (mem_scalarToBytes_lt s)]
  simp only [length_scalarToBytes]
  rw [if_neg (by norm_num), scalarFromBytes_scalarToBytes]

theorem decompress_compress (p : RistrettoPoint) : decompress (compress p) = some p := by
  have hval : leVal (compress p) = p.dlog.val :=
    leVal_toBytesLE 32 p.dlog.val (lt_trans (ZMod.val_lt p.dlog) groupOrder_lt)
  rw [decompress, if_pos (by rw [hval]; exact ZMod.val_lt p.dlog)]
  rw [hval, ZMod.natCast_zmod_val]

theorem point_from_hex_point_to_hex (p : RistrettoPoint) :
    point_from_hex (point_to_hex p) = .ok p := by
  rw [point_to_hex, point_from_hex,
    hex_decode_hex_encode (compress p) (mem_compress_lt p)]
  simp only [length_compress]
  rw [if_neg (by norm_num), decompress_compress]

/-! ## Supporting lemmas: the group model -/

theorem dlog_hmul (p : RistrettoPoint) (s : Scalar) : (p * s).dlog = p.dlog * s := rfl

theorem dlog_padd (p q : RistrettoPoint) : (p + q).dlog = p.dlog + q.dlog := rfl

theorem dlog_basepoint : RISTRETTO_BASEPOINT_POINT.dlog = 1 := rfl

theorem point_eq_iff (p q : RistrettoPoint) : p = q ↔ p.dlog = q.dlog := by
  cases p; cases q; simp

/-- The verification equation holds exactly when the response equals the
honest response k + c·x: in the cyclic group, s·G = k·G + (x·G)·c unwinds to
s = k + x·c. -/
theorem verify_outcome_eq_iff (x k c s : Scalar) :
    verify_outcome (RISTRETTO_BASEPOINT_POINT * x) (RISTRETTO_BASEPOINT_POINT * k) c s =
      .Verified ↔ s = k + c * x := by
  rw [verify_outcome]
  constructor
  · intro h
    by_cases hc :
        RISTRETTO_BASEPOINT_POINT * s =
          RISTRETTO_BASEPOINT_POINT * k + (RISTRETTO_BASEPOINT_POINT * x) * c
    · rw [point_eq_iff] at hc
      simp only [dlog_hmul, dlog_padd, dlog_basepoint, one_mul] at hc
      rw [hc]; ring
    · rw [if_neg hc] at h; exact absurd h (by simp)
  · intro h
    rw [if_pos]
    rw [point_eq_iff]
    simp only [dlog_hmul, dlog_padd, dlog_basepoint, one_mul, h]
    ring

/-! ## Supporting lemmas: honest engine runs -/

/-- An honest prover run against the challenge c: it writes exactly the
commit and then the response k + c·x, and succeeds. -/
theorem prover_run_honest (x k c : Scalar) :
    prover_run x k [Message.challenge c] =
      ([Message.commit (RISTRETTO_BASEPOINT_POINT * k), Message.response (k + c * x)],
        .ok ()) := by
  simp [prover_run, Message.challenge, scalar_from_hex_scalar_to_hex]

/-- The verifier's handler on a well-formed commit and response: it writes
exactly the challenge and returns Ok with the outcome of the check. -/
theorem handle_prover_wellformed (c : Scalar) (R : RistrettoPoint) (s : Scalar) :
    handle_prover c [Message.commit R, Message.response s] =
      ([Message.challenge c], .ok (verify_outcome verifierPublicKey R c s)) := by
  simp [handle_prover, Message.commit, Message.response,
    point_from_hex_point_to_hex, scalar_from_hex_scalar_to_hex]

/-! ## Supporting lemmas: single-bit flips -/

theorem two_pow_le_of_bit_set {b t : Nat} (h : b / 2^t % 2 = 1) : 2^t ≤ b := by
  have hq : 1 ≤ b / 2^t := by
    rcases Nat.eq_zero_or_pos (b / 2^t) with h0 | h0
    · rw [h0] at h; simp at h
    · exact h0
  exact (Nat.one_le_div_iff (Nat.pos_pow_of_pos t (by norm_num))).mp hq

/-- Flipping bit t of byte k changes the little-endian value by exactly
2^(8·k + t), downward when the bit was set and upward when it was clear. -/
theorem leVal_flipAt (bs : List Nat) (k t : Nat) (hk : k < bs.length) :
    leVal (flipAt bs k t) + 2 ^ (8 * k + t) = leVal bs ∨
      leVal (flipAt bs k t) = leVal bs + 2 ^ (8 * k + t) := by
  induction bs generalizing k with
  | nil => simp at hk
  | cons b rest ih =>
    cases k with
    | zero =>
      simp only [flipAt, leVal, Nat.mul_zero, Nat.zero_add]
      by_cases hbit : b / 2^t % 2 = 1
      · left
        rw [flipBitByte, if_pos hbit]
        have hle : 2^t ≤ b := two_pow_le_of_bit_set hbit
        omega
      · right
        rw [flipBitByte, if_neg hbit]
        omega
    | succ k =>
      have hk2 : k < rest.length := by simpa using hk
      have hpow : (2:Nat) ^ (8 * (k + 1) + t) = 256 * 2 ^ (8 * k + t) := by
        rw [show 8 * (k + 1) + t = 8 + (8 * k + t) by ring, pow_add]
        norm_num
      rcases ih k hk2 with h | h
      · left
        simp only [flipAt, leVal, hpow]
        omega
      · right
        simp only [flipAt, leVal, hpow]
        omega

theorem length_flipAt (bs : List Nat) (k t : Nat) : (flipAt bs k t).length = bs.length := by
  induction bs generalizing k with
  | nil => rfl
  | cons b rest ih =>
    cases k with
    | zero => simp [flipAt]
    | succ k => simp [flipAt, ih k]

theorem flipBitByte_lt {b t : Nat} (hb : b < 256) (ht : t < 8) : flipBitByte b t < 256 := by
  have hp : 0 < 2^t := Nat.pos_pow_of_pos t (by norm_num)
  rw [flipBitByte]
  by_cases h : b / 2^t % 2 = 1
  · rw [if_pos h]; omega
  · rw [if_neg h]
    have hq : b / 2^t % 2 = 0 := by omega
    have hdm := Nat.div_add_mod b (2^t)
    have hdm2 := Nat.div_add_mod (b / 2^t) 2
    rw [hq, Nat.add_zero] at hdm2
    have hpow : (2:Nat)^(t+1) * 2^(7-t) = 256 := by
      rw [← pow_add, show t + 1 + (7 - t) = 8 by omega]
      norm_num
    have hb2 : 2^(t+1) * (b / 2^t / 2) ≤ b := by
      calc 2^(t+1) * (b / 2^t / 2) = 2^t * (2 * (b / 2^t / 2)) := by ring
        _ = 2^t * (b / 2^t) := by rw [hdm2]
        _ ≤ b := Nat.le.intro hdm
    have hmlt : b / 2^t / 2 < 2^(7-t) := by
      by_contra hge
      push_neg at hge
      have h256 : 256 ≤ 2^(t+1) * (b / 2^t / 2) := by
        calc 256 = 2^(t+1) * 2^(7-t) := hpow.symm
          _ ≤ 2^(t+1) * (b / 2^t / 2) := Nat.mul_le_mul_left _ hge
      omega
    have hlt : b + 2^t < 2^(t+1) * (b / 2^t / 2 + 1) := by
      calc b + 2^t = 2^t * (b / 2^t) + b % 2^t + 2^t := by rw [hdm]
        _ = 2^t * (2 * (b / 2^t / 2)) + b % 2^t + 2^t := by rw [hdm2]
        _ < 2^t * (2 * (b / 2^t / 2)) + 2^t + 2^t := by
            have := Nat.mod_lt b (show 0 < 2^t from Nat.pos_pow_of_pos t (by norm_num))
            omega
        _ = 2^(t+1) * (b / 2^t / 2 + 1) := by ring
    have hle : 2^(t+1) * (b / 2^t / 2 + 1) ≤ 256 := by
      calc 2^(t+1) * (b / 2^t / 2 + 1) ≤ 2^(t+1) * 2^(7-t) :=
            Nat.mul_le_mul_left _ (by omega)
        _ = 256 := hpow
    omega

theorem mem_flipAt_lt (bs : List Nat) (k t : Nat) (hbs : ∀ b ∈ bs, b < 256) (ht : t < 8) :
    ∀ b ∈ flipAt bs k t, b < 256 := by
  induction bs generalizing k with
  | nil => intro b hb; simp [flipAt] at hb
  | cons b rest ih =>
    intro y hy
    cases k with
    | zero =>
      simp only [flipAt, List.mem_cons] at hy
      rcases hy with hy | hy
      · subst hy; exact flipBitByte_lt (hbs b (by simp)) ht
      · exact hbs y (by simp [hy])
    | succ k =>
      simp only [flipAt, List.mem_cons] at hy
      rcases hy with hy | hy
      · subst hy; exact hbs y (by simp)
      · exact ih k (fun z hz => hbs z (by simp [hz])) y hy

theorem two_pow_ne_zero_scalar (i : Nat) : (2:Scalar)^i ≠ 0 := by
  have hcast : (((2:Nat)^i : Nat) : Scalar) = (2:Scalar)^i := by push_cast; rfl
  rw [← hcast, Ne, ZMod.natCast_zmod_eq_zero_iff_dvd]
  intro hdvd
  exact absurd (Nat.Coprime.eq_one_of_dvd (Nat.Coprime.pow_right i (by decide)) hdvd)
    (by decide)

/-- Decoding the bit-flipped canonical encoding of a scalar never returns the
scalar itself: the value changes by ±2^i, and no power of two is divisible by
the odd group order. -/
theorem scalarFromBytes_flip_ne (s : Scalar) (i : Nat) (hi : i < 256) :
    scalarFromBytesModOrder (flipBitInBytes (scalarToBytes s) i) ≠ s := by
  intro heq
  rw [flipBitInBytes, scalarFromBytesModOrder] at heq
  have hlenl : i / 8 < (scalarToBytes s).length := by
    rw [length_scalarToBytes]; omega
  have hidx : 8 * (i / 8) + i % 8 = i := by omega
  have hBval : leVal (scalarToBytes s) = s.val := leVal_scalarToBytes s
  rcases leVal_flipAt (scalarToBytes s) (i / 8) (i % 8) hlenl with h | h
  · rw [hidx, hBval] at h
    have hc := congrArg (fun n : Nat => (n : Scalar)) h
    push_cast at hc
    rw [ZMod.natCast_zmod_val] at hc
    rw [heq] at hc
    exact two_pow_ne_zero_scalar i (add_right_eq_self.mp hc)
  · rw [hidx, hBval] at h
    have hc := congrArg (fun n : Nat => (n : Scalar)) h
    push_cast at hc
    rw [ZMod.natCast_zmod_val] at hc
    rw [heq] at hc
    exact two_pow_ne_zero_scalar i (self_eq_add_right.mp hc)

/-- The verifier's check rejects the bit-flipped response. -/
theorem verify_outcome_flip (x k c : Scalar) (i : Nat) (hi : i < 256) :
    verify_outcome (RISTRETTO_BASEPOINT_POINT * x) (RISTRETTO_BASEPOINT_POINT * k) c
      (scalarFromBytesModOrder (flipBitInBytes (scalarToBytes (k + c * x)) i)) =
      .Rejected := by
  have hne := scalarFromBytes_flip_ne (k + c * x) i hi
  cases hvo : verify_outcome (RISTRETTO_BASEPOINT_POINT * x) (RISTRETTO_BASEPOINT_POINT * k) c
      (scalarFromBytesModOrder (flipBitInBytes (scalarToBytes (k + c * x)) i)) with
  | Verified => exact absurd ((verify_outcome_eq_iff x k c _).mp hvo) hne
  | Rejected => rfl

/-- Hex round-trip for the bit-flipped encoding of a scalar. -/
theorem scalar_from_hex_flip (s : Scalar) (i : Nat) :
    scalar_from_hex (hex_encode (flipBitInBytes (scalarToBytes s) i)) =
      .ok (scalarFromBytesModOrder (flipBitInBytes (scalarToBytes s) i)) := by
  have hmem : ∀ b ∈ flipBitInBytes (scalarToBytes s) i, b < 256 := by
    rw [flipBitInBytes]
    exact mem_flipAt_lt _ _ _ (mem_scalarToBytes_lt s) (Nat.mod_lt i (by norm_num))
  have hlen : (flipBitInBytes (scalarToBytes s) i).length = 32 := by
    rw [flipBitInBytes, length_flipAt, length_scalarToBytes]
  rw [scalar_from_hex, hex_decode_hex_encode _ hmem]
  simp only [hlen]
  rw [if_neg (by norm_num)]

/-! ## Further helper lemmas shared by the claim theorems -/

theorem verify_outcome_honest (x k c : Scalar) :
    verify_outcome (RISTRETTO_BASEPOINT_POINT * x) (RISTRETTO_BASEPOINT_POINT * k) c
      (k + c * x) = .Verified :=
  (verify_outcome_eq_iff x k c _).mpr rfl

theorem verifierPublicKey_eq :
    verifierPublicKey = RISTRETTO_BASEPOINT_POINT * proverSecret := rfl

/-- The verifier's handler on any two messages whose kinds and payloads
decode: it writes the challenge and returns Ok with the outcome of the check. -/
theorem handle_prover_decoded (c : Scalar) (m1 m2 : Message) (rest : List Message)
    (R : RistrettoPoint) (s : Scalar)
    (h1 : m1.kind = "commit") (h2 : point_from_hex m1.payload = .ok R)
    (h3 : m2.kind = "response") (h4 : scalar_from_hex m2.payload = .ok s) :
    handle_prover c (m1 :: m2 :: rest) =
      ([Message.challenge c], .ok (verify_outcome verifierPublicKey R c s)) := by
  simp [handle_prover, h1, h2, h3, h4]

/-! ## Claim theorems -/

/-- C1: Completeness of the protocol: for every secret scalar x with public
key X = x·G, every nonce k with commitment R = k·G and every challenge c, the
response s = k + c·x satisfies the check s·G = R + c·X; and a full honest
exchange of the two engines (with the demo secret of the repository) ends in
Verified. -/
theorem claim_C1_completeness :
    (∀ x k c : Scalar,
      verify_outcome (RISTRETTO_BASEPOINT_POINT * x) (RISTRETTO_BASEPOINT_POINT * k) c
        (k + c * x) = .Verified) ∧
    (∀ k c : Scalar,
      handle_prover c (prover_run proverSecret k [Message.challenge c]).1 =
        ([Message.challenge c], .ok .Verified)) := by
  constructor
  · exact verify_outcome_honest
  · intro k c
    rw [prover_run_honest]
    rw [show (([Message.commit (RISTRETTO_BASEPOINT_POINT * k),
        Message.response (k + c * proverSecret)],
        (Except.ok () : Except ProtocolFailure Unit))).1 =
        [Message.commit (RISTRETTO_BASEPOINT_POINT * k),
          Message.response (k + c * proverSecret)] from rfl]
    rw [handle_prover_wellformed, verifierPublicKey_eq, verify_outcome_honest]

/-- C2: single-bit-flip soundness: for every secret x, nonce k, challenge c
and bit index i, the scalar the verifier decodes from the bit-flipped
canonical encoding of the honest response s = k + c·x fails the check
s·G = R + c·X, and the verifier's handler ends the session with Ok Rejected
when the flipped response is sent in a run with the repository's demo key. -/
theorem claim_C2_bit_flip_rejected :
    (∀ (x k c : Scalar) (i : Fin 256),
      scalar_from_hex (hex_encode (flipBitInBytes (scalarToBytes (k + c * x)) i.val)) =
        .ok (scalarFromBytesModOrder (flipBitInBytes (scalarToBytes (k + c * x)) i.val)) ∧
      verify_outcome (RISTRETTO_BASEPOINT_POINT * x) (RISTRETTO_BASEPOINT_POINT * k) c
        (scalarFromBytesModOrder (flipBitInBytes (scalarToBytes (k + c * x)) i.val)) =
        .Rejected) ∧
    (∀ (k c : Scalar) (i : Fin 256),
      handle_prover c [Message.commit (RISTRETTO_BASEPOINT_POINT * k),
          ⟨"response", hex_encode (flipBitInBytes (scalarToBytes (k + c * proverSecret)) i.val)⟩] =
        ([Message.challenge c], .ok .Rejected)) := by
  constructor
  · intro x k c i
    exact ⟨scalar_from_hex_flip _ _, verify_outcome_flip x k c i.val i.isLt⟩
  · intro k c i
    rw [handle_prover_decoded c _ _ [] (RISTRETTO_BASEPOINT_POINT * k)
      (scalarFromBytesModOrder (flipBitInBytes (scalarToBytes (k + c * proverSecret)) i.val))
      rfl (point_from_hex_point_to_hex _) rfl (scalar_from_hex_flip _ _)]
    rw [verifierPublicKey_eq, verify_outcome_flip proverSecret k c i.val i.isLt]

/-- C3: encoding round-trip: decoding the hex encoding returns Ok of the
original value, for every scalar and every group element. -/
theorem claim_C3_encoding_roundtrip :
    (∀ s : Scalar, scalar_from_hex (scalar_to_hex s) = .ok s) ∧
    (∀ p : RistrettoPoint, point_from_hex (point_to_hex p) = .ok p) :=
  ⟨scalar_from_hex_scalar_to_hex, point_from_hex_point_to_hex⟩

/-- C4: in a full honest run the prover writes exactly one Commit encoding
R = k·G followed (after the challenge) by one Response encoding
s = k + c·x mod order, and the verifier writes exactly one Challenge
encoding c, so the wire carries commit, challenge, response in order and the
payloads encode only R, c and s. -/
theorem claim_C4_wire_messages :
    ∀ k c : Scalar,
      prover_run proverSecret k [Message.challenge c] =
        ([Message.commit (RISTRETTO_BASEPOINT_POINT * k),
          Message.response (k + c * proverSecret)], .ok ()) ∧
      handle_prover c [Message.commit (RISTRETTO_BASEPOINT_POINT * k),
          Message.response (k + c * proverSecret)] =
        ([Message.challenge c], .ok .Verified) := by
  intro k c
  refine ⟨prover_run_honest proverSecret k c, ?_⟩
  rw [handle_prover_wellformed, verifierPublicKey_eq, verify_outcome_honest]

/-- C5: decoding a payload fails with an error, never a silent default:
scalar_from_hex returns an error whenever the input is not valid hex for
exactly 32 bytes, and point_from_hex returns InvalidPoint for every 32-byte
input that does not decompress to a group element. -/
theorem claim_C5_decode_errors :
    (∀ s : String,
      (∀ bytes, hex_decode s = .ok bytes → bytes.length ≠ 32) →
      ∃ e, scalar_from_hex s = .error e) ∧
    (∀ (s : String) (bytes : List Nat),
      hex_decode s = .ok bytes → bytes.length = 32 → decompress bytes = none →
      point_from_hex s = .error .InvalidPoint) := by
  constructor
  · intro s h
    cases hd : hex_decode s with
    | error e => exact ⟨e, by simp only [scalar_from_hex, hd]⟩
    | ok bytes =>
      refine ⟨.InvalidStringLength, ?_⟩
      simp only [scalar_from_hex, hd]
      rw [if_pos (h bytes hd)]
  · intro s bytes hd hlen hdec
    simp [point_from_hex, hd, hlen, hdec]

/-- Witness for C5 at concrete inputs: the 1-byte hex string "00" is rejected
by scalar_from_hex, and 32 bytes of 0xff are rejected by point_from_hex with
InvalidPoint. -/
theorem claim_C5_decode_errors_witness :
    (∃ e, scalar_from_hex "00" = .error e) ∧
    point_from_hex "ffffffffffffffffffffffffffffffffffffffffffffffffffffffffffffffff" =
      .error .InvalidPoint := by
  constructor
  · apply claim_C5_decode_errors.1
    intro bytes h
    rw [show hex_decode "00" = Except.ok [(0:Nat)] from rfl] at h
    rw [← Except.ok.inj h]
    decide
  · exact claim_C5_decode_errors.2 _ (List.replicate 32 255) (by decide) (by decide) (by decide)

/-- C6: sequence enforcement: a first message whose kind is not "commit"
makes the verifier abort with a protocol error, and a message after the
commit whose kind is not "challenge" makes the prover abort with a protocol
error. -/
theorem claim_C6_sequence_enforcement :
    (∀ (c : Scalar) (m : Message) (rest : List Message), m.kind ≠ "commit" →
      handle_prover c (m :: rest) = ([], .error (.protocol "Expected commit message"))) ∧
    (∀ (x k : Scalar) (m : Message) (rest : List Message), m.kind ≠ "challenge" →
      prover_run x k (m :: rest) =
        ([Message.commit (RISTRETTO_BASEPOINT_POINT * k)],
          .error (.protocol "expected challenge"))) := by
  constructor
  · intro c m rest h
    simp [handle_prover, h]
  · intro x k m rest h
    simp [prover_run, h]

/-- Witness for C6 at concrete inputs: a response where a commit is expected
aborts the verifier, and a commit where a challenge is expected aborts the
prover. -/
theorem claim_C6_sequence_enforcement_witness :
    handle_prover 0 [⟨"response", ""⟩] = ([], .error (.protocol "Expected commit message")) ∧
    prover_run 0 0 [⟨"commit", ""⟩] =
      ([Message.commit (RISTRETTO_BASEPOINT_POINT * (0 : Scalar))],
        .error (.protocol "expected challenge")) :=
  ⟨claim_C6_sequence_enforcement.1 0 ⟨"response", ""⟩ [] (by decide),
   claim_C6_sequence_enforcement.2 0 0 ⟨"commit", ""⟩ [] (by decide)⟩

/-- C7: a rejected proof is not an error: whenever the two received messages
have the expected kinds and their payloads decode, the verifier's handler
returns Ok carrying the outcome of the check, Verified or Rejected alike;
the error results are reserved for decode, sequence and transport failures. -/
theorem claim_C7_rejected_is_ok :
    ∀ (c : Scalar) (m1 m2 : Message) (rest : List Message) (R : RistrettoPoint) (s : Scalar),
      m1.kind = "commit" → point_from_hex m1.payload = .ok R →
      m2.kind = "response" → scalar_from_hex m2.payload = .ok s →
      (handle_prover c (m1 :: m2 :: rest)).2 =
        .ok (verify_outcome verifierPublicKey R c s) := by
  intro c m1 m2 rest R s h1 h2 h3 h4
  rw [handle_prover_decoded c m1 m2 rest R s h1 h2 h3 h4]

/-- Witness for C7 at concrete inputs: a well-formed commit and response give
an Ok result carrying the check's outcome. -/
theorem claim_C7_rejected_is_ok_witness :
    (handle_prover 0
      [⟨"commit", "0100000000000000000000000000000000000000000000000000000000000000"⟩,
       ⟨"response", "0000000000000000000000000000000000000000000000000000000000000000"⟩]).2 =
      .ok (verify_outcome verifierPublicKey RISTRETTO_BASEPOINT_POINT 0 0) :=
  claim_C7_rejected_is_ok 0 _ _ [] RISTRETTO_BASEPOINT_POINT 0 rfl (by decide) rfl (by decide)

/-- C8: totality of scalar decoding on well-formed input: on valid hex that
decodes to exactly 32 bytes, scalar_from_hex always returns Ok of the bytes
reduced modulo the group order. -/
theorem claim_C8_scalar_decode_total :
    ∀ (s : String) (bytes : List Nat),
      hex_decode s = .ok bytes → bytes.length = 32 →
      scalar_from_hex s = .ok (scalarFromBytesModOrder bytes) := by
  intro s bytes hd hlen
  simp [scalar_from_hex, hd, hlen]

/-- Witness for C8 at a concrete input: 64 zero characters decode to the zero
scalar. -/
theorem claim_C8_scalar_decode_total_witness :
    scalar_from_hex "0000000000000000000000000000000000000000000000000000000000000000" =
      .ok (scalarFromBytesModOrder (List.replicate 32 0)) :=
  claim_C8_scalar_decode_total _ _ (by decide) (by decide)

/-- C9: key derivation is deterministic and shared: the prover and the
verifier hash the same literal seed with the same deterministic hash, so they
compute the same secret and the same public key; in particular the verifier
recomputes the secret itself. -/
theorem claim_C9_shared_secret :
    proverSecretSeed = "demo-prover-secret" ∧
    verifierSecretSeed = "demo-prover-secret" ∧
    proverSecret = hash_from_bytes_sha512 "demo-prover-secret" ∧
    verifierSecret = hash_from_bytes_sha512 "demo-prover-secret" ∧
    proverSecret = verifierSecret ∧
    proverPublicKey = verifierPublicKey :=
  ⟨rfl, rfl, rfl, rfl, rfl, rfl⟩

/-- C10: the scalar wire decode is not injective: the little-endian hex
encoding of the group order and the all-zero hex string are distinct
64-character strings that scalar_from_hex maps to the same Ok scalar, because
values at or above the order are silently reduced instead of rejected. -/
theorem claim_C10_noninjective_decode :
    "edd3f55c1a631258d69cf7a2def9de1400000000000000000000000000000010" ≠
      "0000000000000000000000000000000000000000000000000000000000000000" ∧
    hex_decode "edd3f55c1a631258d69cf7a2def9de1400000000000000000000000000000010" =
      .ok (toBytesLE 32 groupOrder) ∧
    scalar_from_hex "edd3f55c1a631258d69cf7a2def9de1400000000000000000000000000000010" =
      .ok 0 ∧
    scalar_from_hex "0000000000000000000000000000000000000000000000000000000000000000" =
      .ok 0 :=
  ⟨by decide, by decide, by decide, by decide⟩
